import Mathlib

/-!
# Verification of the RSE crawler and search service

Shallow embedding of the Go sources under `src/crawler` — the crawler in
`src/crawler/src/crawler/crawler/crawler.go` and the search API in
`src/crawler/src/api/main.go` — together with theorems settling the
specification claims about them.

External dependencies of the Go code (`net/url`, `golang.org/x/net/html`,
the Porter stemmer, the robots.txt parser) are not part of the repository;
they are modelled here by executable definitions faithful to their
documented behaviour, restricted to the features the repository code
exercises.  Each such model says so in its doc comment.
-/

namespace RSE

/-! ## URL model

`GoURL` models the fields of Go `net/url.URL` that the crawler reads:
`Scheme`, `Host`, `Path`, `RawQuery`, `Fragment`.  `parseURL` models
`url.Parse` (no user-info part, percent-escapes kept verbatim), returning
`none` where Go returns an error; `GoURL.str` models `URL.String`;
`resolveReference` models `URL.ResolveReference`.
-/

/-- Character-wise lowercasing, modelling Go `strings.ToLower` restricted
to ASCII (the only case the embedded code distinguishes). -/
def lowerStr (s : String) : String :=
  (s.toList.map Char.toLower).asString

structure GoURL where
  scheme : String
  host : String
  path : String
  query : String
  fragment : String
deriving Repr, DecidableEq

/-- Split a character list at the first occurrence of `c`: the part before
it, and `some` tail after it when `c` occurs at all. -/
def breakAt (c : Char) : List Char → List Char × Option (List Char)
  | [] => ([], none)
  | x :: xs =>
    if x = c then ([], some xs)
    else
      let r := breakAt c xs
      (x :: r.1, r.2)

/-- Characters allowed in a URL scheme after its first character, as in Go
`net/url.getScheme`. -/
def isSchemeChar (c : Char) : Bool :=
  c.isAlpha || c.isDigit || c == '+' || c == '-' || c == '.'

/-- Find the first `':'` that appears before any `'/'`, `'?'` or `'#'`,
returning the characters before it and after it. -/
def findColon : List Char → Option (List Char × List Char)
  | [] => none
  | x :: xs =>
    if x = ':' then some ([], xs)
    else if x = '/' || x = '?' || x = '#' then none
    else (findColon xs).map (fun p => (x :: p.1, p.2))

/-- Scheme scan modelling Go `net/url.getScheme`: `none` on "missing
protocol scheme" (a leading colon); `some (some sch, rest)` when a
well-formed scheme ends at a colon; `some (none, cs)` when the input has no
scheme part (it is then all path/host material). -/
def getScheme (cs : List Char) : Option (Option (List Char) × List Char) :=
  match findColon cs with
  | none => some (none, cs)
  | some (before, after) =>
    match before with
    | [] => none
    | c0 :: restChars =>
      if c0.isAlpha && restChars.all isSchemeChar then
        some (some (c0 :: restChars), after)
      else
        some (none, cs)

/-- Model of Go `url.Parse` (external `net/url` package, not under `src/`),
restricted to the shapes the crawler exercises: fragment split at the first
`'#'`, scheme scan, query split at the first `'?'`, authority after `"//"`
up to the next `'/'`.  Control characters make parsing fail, as in Go. -/
def parseURL (s : String) : Option GoURL :=
  let cs := s.toList
  if cs.any (fun c => c.val < 32 || c.val == 127) then none
  else
    let fr := breakAt '#' cs
    let fragment := (fr.2.getD []).asString
    match getScheme fr.1 with
    | none => none
    | some (sch, rest) =>
      let scheme := ((sch.getD []).map Char.toLower).asString
      let qs := breakAt '?' rest
      let query := (qs.2.getD []).asString
      let rest2 := qs.1
      if rest2.take 2 = ['/', '/'] then
        let hostRest := rest2.drop 2
        let hp := hostRest.span (fun c => c ≠ '/')
        some { scheme := scheme, host := hp.1.asString, path := hp.2.asString,
               query := query, fragment := fragment }
      else
        some { scheme := scheme, host := "", path := rest2.asString,
               query := query, fragment := fragment }

/-- Model of Go `URL.String` for the URL shapes produced by `parseURL`. -/
def GoURL.str (u : GoURL) : String :=
  (if u.scheme = "" then "" else u.scheme ++ ":")
    ++ (if u.host = "" then "" else "//" ++ u.host)
    ++ u.path
    ++ (if u.query = "" then "" else "?" ++ u.query)
    ++ (if u.fragment = "" then "" else "#" ++ u.fragment)

/-- One pass of dot-segment removal over path segments: `"."` is dropped,
`".."` pops the previous segment, anything else is kept.  The accumulator
holds the kept segments in reverse. -/
def cleanSegments : List String → List String → List String
  | acc, [] => acc.reverse
  | acc, "." :: rest => cleanSegments acc rest
  | acc, ".." :: rest => cleanSegments (acc.drop 1) rest
  | acc, s :: rest => cleanSegments (s :: acc) rest

/-- Split a character list on every occurrence of `c` (an empty input gives
one empty chunk, as Go `strings.Split` does). -/
def splitChar (c : Char) : List Char → List (List Char)
  | [] => [[]]
  | x :: xs =>
    let r := splitChar c xs
    if x = c then [] :: r
    else
      match r with
      | [] => [[x]]
      | h :: t => (x :: h) :: t

/-- Join path segments with `'/'` separators. -/
def joinSlash : List String → String
  | [] => ""
  | [s] => s
  | s :: rest => s ++ "/" ++ joinSlash rest

/-- Model of Go `net/url.resolvePath`: merge `ref` onto `base` (dropping
the last segment of `base` when `ref` is relative), then remove dot
segments; the result is rooted and keeps a trailing slash after a final
`"."` or `".."`. -/
def resolvePathGo (base ref : String) : String :=
  let baseCs := base.toList
  let refCs := ref.toList
  let full : List Char :=
    if refCs = [] then baseCs
    else if refCs.headD ' ' = '/' then refCs
    else
      let keep := baseCs.length - ((baseCs.reverse.takeWhile (fun c => c ≠ '/')).length)
      baseCs.take keep ++ refCs
  if full = [] then ""
  else
    let segs0 := (splitChar '/' full).map List.asString
    let segs := if full.headD ' ' = '/' then segs0.drop 1 else segs0
    let cleaned := cleanSegments [] segs
    let trailing :=
      match segs.getLast? with
      | some "." => [""]
      | some ".." => [""]
      | _ => []
    "/" ++ joinSlash (cleaned ++ trailing)

/-- Model of Go `URL.ResolveReference`: an absolute reference (or one with
a host) replaces the base apart from an inherited scheme; an empty-path
reference keeps the base path and query (the fragment comes from the
reference unless it is empty too); otherwise the reference path is merged
onto the base path. -/
def resolveReference (u ref : GoURL) : GoURL :=
  if ref.scheme ≠ "" ∨ ref.host ≠ "" then
    { scheme := if ref.scheme ≠ "" then ref.scheme else u.scheme,
      host := ref.host, path := resolvePathGo ref.path "",
      query := ref.query, fragment := ref.fragment }
  else
    { scheme := u.scheme, host := u.host,
      path := resolvePathGo u.path ref.path,
      query := if ref.path = "" ∧ ref.query = "" then u.query else ref.query,
      fragment :=
        if ref.path = "" ∧ ref.query = "" ∧ ref.fragment = "" then u.fragment
        else ref.fragment }

/-- `resolveURL` from `crawler.go`: parse `href` and resolve it against the
base URL, rendering the result; `""` when parsing fails. -/
def resolveURL (base : GoURL) (href : String) : String :=
  match parseURL href with
  | none => ""
  | some u => (resolveReference base u).str

/-- `isValidURL` from `crawler.go`: the link must parse, have scheme
`http` or `https`, and carry no fragment. -/
def isValidURL (link : String) : Bool :=
  match parseURL link with
  | none => false
  | some u =>
    if u.scheme ≠ "http" ∧ u.scheme ≠ "https" then false
    else if u.fragment ≠ "" then false
    else true

/-! ## HTML node model

The crawler parses bodies with `golang.org/x/net/html` (external, not under
`src/`) and then walks the node tree.  `HNode` models that tree: element
nodes with tag, attributes and children, and text nodes.  The parser is
lenient and total — it produces a tree for arbitrary input — so the
embedding of the extraction functions takes the parsed tree directly.
Document, comment and doctype nodes only recurse in the Go walks and are
omitted.
-/

/-- Attribute of an HTML element, as in `golang.org/x/net/html.Attribute`. -/
structure HAttr where
  key : String
  val : String
deriving Repr, DecidableEq

/-- Parsed HTML node tree. -/
inductive HNode where
  | elem (tag : String) (attrs : List HAttr) (children : List HNode)
  | text (data : String)
deriving Repr

/-- Link extraction walk from `extractLinks` in `crawler.go`, written with
an explicit sibling stack: each node is visited before its children and
its children before its later siblings, exactly as the recursive Go walk
does.  For an `a` element the first `href` attribute is resolved against
the base URL and kept when the resolution is non-empty and valid. -/
def extractLinksList (base : GoURL) : List HNode → List String
  | [] => []
  | .text _ :: rest => extractLinksList base rest
  | .elem tag attrs cs :: rest =>
    let here :=
      if tag = "a" then
        match attrs.find? (fun a => a.key == "href") with
        | some a =>
          let r := resolveURL base a.val
          if r ≠ "" ∧ isValidURL r then [r] else []
        | none => []
      else []
    here ++ extractLinksList base (cs ++ rest)
termination_by l => sizeOf l
decreasing_by
  · simp only [List.cons.sizeOf_spec]; omega
  · have h : sizeOf (cs ++ rest) + 1 = sizeOf cs + sizeOf rest := by
      induction cs with
      | nil => simp only [List.nil_append, List.nil.sizeOf_spec]; omega
      | cons x xs ih => simp only [List.cons_append, List.cons.sizeOf_spec]; omega
    simp only [List.cons.sizeOf_spec, HNode.elem.sizeOf_spec]
    omega

/-- `extractLinks` from `crawler.go`, over the parsed tree. -/
def extractLinks (base : GoURL) (doc : HNode) : List String :=
  extractLinksList base [doc]

/-- Concatenated text data of the descendants of a stack of nodes, in
pre-order; the list version of `getTextContent` from `crawler.go`. -/
def textContentList : List HNode → String
  | [] => ""
  | .text d :: rest => d ++ textContentList rest
  | .elem _ _ cs :: rest => textContentList (cs ++ rest)
termination_by l => sizeOf l
decreasing_by
  · simp only [List.cons.sizeOf_spec]; omega
  · have h : sizeOf (cs ++ rest) + 1 = sizeOf cs + sizeOf rest := by
      induction cs with
      | nil => simp only [List.nil_append, List.nil.sizeOf_spec]; omega
      | cons x xs ih => simp only [List.cons_append, List.cons.sizeOf_spec]; omega
    simp only [List.cons.sizeOf_spec, HNode.elem.sizeOf_spec]
    omega

/-- `getTextContent` from `crawler.go`: the concatenation of the text data
of all descendants of `n`, in document order (`n`'s own data when `n` is a
text node is not included, as in the source, which iterates children). -/
def getTextContent (n : HNode) : String :=
  match n with
  | .text _ => ""
  | .elem _ _ cs => textContentList cs

/-- The `meta`-element check inside `extractMetadata` in `crawler.go`: when
some attribute has key `name` and value lowercasing to `description`, the
value of the first `content` attribute (if any) is returned. -/
def metaContent (attrs : List HAttr) : Option String :=
  if attrs.any (fun a => a.key == "name" && lowerStr a.val == "description") then
    (attrs.find? (fun a => a.key == "content")).map (fun a => a.val)
  else none

/-- The walk of `extractMetadata` from `crawler.go`, with an explicit
sibling stack and the `(title, description)` accumulator threaded through
in document order.  A `title` element fills the title only when it is still
empty; a matching `meta` element overwrites the description and, as the Go
closure returns at that point, its children are skipped. -/
def extractMetadataList (acc : String × String) : List HNode → String × String
  | [] => acc
  | .text _ :: rest => extractMetadataList acc rest
  | .elem tag attrs cs :: rest =>
    let acc1 :=
      if tag = "title" ∧ acc.1 = "" then (textContentList cs, acc.2) else acc
    if tag = "meta" then
      match metaContent attrs with
      | some c => extractMetadataList (acc1.1, c) rest
      | none => extractMetadataList acc1 (cs ++ rest)
    else extractMetadataList acc1 (cs ++ rest)
termination_by l => sizeOf l
decreasing_by
  · simp only [List.cons.sizeOf_spec]; omega
  · simp only [List.cons.sizeOf_spec]; omega
  · have h : sizeOf (cs ++ rest) + 1 = sizeOf cs + sizeOf rest := by
      induction cs with
      | nil => simp only [List.nil_append, List.nil.sizeOf_spec]; omega
      | cons x xs ih => simp only [List.cons_append, List.cons.sizeOf_spec]; omega
    simp only [List.cons.sizeOf_spec, HNode.elem.sizeOf_spec]
    omega
  · have h : sizeOf (cs ++ rest) + 1 = sizeOf cs + sizeOf rest := by
      induction cs with
      | nil => simp only [List.nil_append, List.nil.sizeOf_spec]; omega
      | cons x xs ih => simp only [List.cons_append, List.cons.sizeOf_spec]; omega
    simp only [List.cons.sizeOf_spec, HNode.elem.sizeOf_spec]
    omega

/-- `extractMetadata` from `crawler.go`, over the parsed tree. -/
def extractMetadata (doc : HNode) : String × String :=
  extractMetadataList ("", "") [doc]

/-! ## Specification-side descriptions of the extraction walks

These definitions follow the words of the (amended) claims, to be compared
with the embedded code above.
-/

/-- The first `href` attribute of each `a` element, in document order. -/
def anchorHrefsList : List HNode → List String
  | [] => []
  | .text _ :: rest => anchorHrefsList rest
  | .elem tag attrs cs :: rest =>
    (if tag = "a" then
       match attrs.find? (fun a => a.key == "href") with
       | some a => [a.val]
       | none => []
     else []) ++ anchorHrefsList (cs ++ rest)
termination_by l => sizeOf l
decreasing_by
  · simp only [List.cons.sizeOf_spec]; omega
  · have h : sizeOf (cs ++ rest) + 1 = sizeOf cs + sizeOf rest := by
      induction cs with
      | nil => simp only [List.nil_append, List.nil.sizeOf_spec]; omega
      | cons x xs ih => simp only [List.cons_append, List.cons.sizeOf_spec]; omega
    simp only [List.cons.sizeOf_spec, HNode.elem.sizeOf_spec]
    omega

/-- Whether the forest contains any `a` element. -/
def hasAnchorList : List HNode → Bool
  | [] => false
  | .text _ :: rest => hasAnchorList rest
  | .elem tag _ cs :: rest => tag == "a" || hasAnchorList (cs ++ rest)
termination_by l => sizeOf l
decreasing_by
  · simp only [List.cons.sizeOf_spec]; omega
  · have h : sizeOf (cs ++ rest) + 1 = sizeOf cs + sizeOf rest := by
      induction cs with
      | nil => simp only [List.nil_append, List.nil.sizeOf_spec]; omega
      | cons x xs ih => simp only [List.cons_append, List.cons.sizeOf_spec]; omega
    simp only [List.cons.sizeOf_spec, HNode.elem.sizeOf_spec]
    omega

/-- The text contents of all `title` elements, in document order. -/
def titlesList : List HNode → List String
  | [] => []
  | .text _ :: rest => titlesList rest
  | .elem tag _ cs :: rest =>
    (if tag = "title" then [textContentList cs] else []) ++ titlesList (cs ++ rest)
termination_by l => sizeOf l
decreasing_by
  · simp only [List.cons.sizeOf_spec]; omega
  · have h : sizeOf (cs ++ rest) + 1 = sizeOf cs + sizeOf rest := by
      induction cs with
      | nil => simp only [List.nil_append, List.nil.sizeOf_spec]; omega
      | cons x xs ih => simp only [List.cons_append, List.cons.sizeOf_spec]; omega
    simp only [List.cons.sizeOf_spec, HNode.elem.sizeOf_spec]
    omega

/-- The matched description values of all `meta` elements whose `name`
attribute equals `description` case-insensitively and that carry a
`content` attribute, in document order. -/
def metaDescsList : List HNode → List String
  | [] => []
  | .text _ :: rest => metaDescsList rest
  | .elem tag attrs cs :: rest =>
    (if tag = "meta" then (metaContent attrs).toList else []) ++
      metaDescsList (cs ++ rest)
termination_by l => sizeOf l
decreasing_by
  · simp only [List.cons.sizeOf_spec]; omega
  · have h : sizeOf (cs ++ rest) + 1 = sizeOf cs + sizeOf rest := by
      induction cs with
      | nil => simp only [List.nil_append, List.nil.sizeOf_spec]; omega
      | cons x xs ih => simp only [List.cons_append, List.cons.sizeOf_spec]; omega
    simp only [List.cons.sizeOf_spec, HNode.elem.sizeOf_spec]
    omega

/-- Every `meta` element in the forest is childless, as `golang.org/x/net/html`
produces for real HTML (`meta` is a void element). -/
def metaLeaves : List HNode → Bool
  | [] => true
  | .text _ :: rest => metaLeaves rest
  | .elem tag _ cs :: rest =>
    (!(tag == "meta") || cs.isEmpty) && metaLeaves (cs ++ rest)
termination_by l => sizeOf l
decreasing_by
  · simp only [List.cons.sizeOf_spec]; omega
  · have h : sizeOf (cs ++ rest) + 1 = sizeOf cs + sizeOf rest := by
      induction cs with
      | nil => simp only [List.nil_append, List.nil.sizeOf_spec]; omega
      | cons x xs ih => simp only [List.cons_append, List.cons.sizeOf_spec]; omega
    simp only [List.cons.sizeOf_spec, HNode.elem.sizeOf_spec]
    omega

/-! ## Concrete inputs used by counterexamples and witnesses -/

/-- The base URL `http://h/a` as the crawler parses it. -/
def exBase : GoURL :=
  { scheme := "http", host := "h", path := "/a", query := "", fragment := "" }

/-- An anchor element with a single `href` attribute. -/
def anchorTo (href : String) : HNode :=
  .elem "a" [{ key := "href", val := href }] []

/-- A page at `http://h/a` that links to itself twice. -/
def selfLinkDoc : HNode :=
  .elem "html" [] [.elem "body" [] [anchorTo "http://h/a", anchorTo "http://h/a"]]

/-- A page whose `title` text carries surrounding spaces. -/
def spacedTitleDoc : HNode :=
  .elem "html" [] [.elem "head" [] [.elem "title" [] [.text " x "]]]

/-- A page with two `meta description` elements with distinct contents. -/
def twoMetaDoc : HNode :=
  .elem "html" []
    [.elem "head" []
      [.elem "meta" [{ key := "name", val := "Description" },
                     { key := "content", val := "first" }] [],
       .elem "meta" [{ key := "name", val := "description" },
                     { key := "content", val := "second" }] []]]

/-! ## Porter stemmer

`api/main.go` stems query tokens with the external `porterstemmer` package,
which is not under `src/`.  The definitions below are modelled from the
spec: the glossary defines a stem as "the Porter-algorithm reduction of an
English word to its root", so the classic Porter (1980) algorithm is
implemented here, with the reference implementation's guard that words of
length at most 2 are returned unchanged.
-/

/-- Letters `a`, `e`, `i`, `o`, `u`. -/
def isVowelChar (c : Char) : Bool :=
  c == 'a' || c == 'e' || c == 'i' || c == 'o' || c == 'u'

/-- Vowel flags of a word: `y` counts as a vowel exactly when it follows a
consonant and is not the first letter. -/
def vowelFlagsGo (first prevVowel : Bool) : List Char → List Bool
  | [] => []
  | c :: cs =>
    let v :=
      if isVowelChar c then true
      else if c == 'y' then !first && !prevVowel
      else false
    v :: vowelFlagsGo false v cs

/-- Vowel flags of a word. -/
def vowelFlags (w : List Char) : List Bool :=
  vowelFlagsGo true false w

/-- Count of vowel-to-consonant transitions: the Porter measure `m`. -/
def countVC : List Bool → Nat
  | a :: b :: rest => (if a && !b then 1 else 0) + countVC (b :: rest)
  | _ => 0

/-- The Porter measure of a (partial) word. -/
def porterMeasure (w : List Char) : Nat :=
  countVC (vowelFlags w)

/-- Whether the (partial) word contains a vowel. -/
def hasVowel (w : List Char) : Bool :=
  (vowelFlags w).any (fun b => b)

/-- Last character, with a placeholder for the empty word. -/
def lastChar (w : List Char) : Char :=
  w.getLastD '*'

/-- Whether the word ends in a double consonant. -/
def endsDouble (w : List Char) : Bool :=
  match w.reverse with
  | a :: b :: _ => a == b && ((vowelFlags w).getLastD true == false)
  | _ => false

/-- Whether the word ends consonant-vowel-consonant with the final
consonant not `w`, `x` or `y` (Porter's `*o` condition). -/
def cvcEnd (w : List Char) : Bool :=
  match w.reverse, (vowelFlags w).reverse with
  | c1 :: _ :: _ :: _, f1 :: f2 :: f3 :: _ =>
    f1 == false && f2 == true && f3 == false &&
      !(c1 == 'w' || c1 == 'x' || c1 == 'y')
  | _, _ => false

/-- The characters of a suffix literal. -/
def sfx (s : String) : List Char :=
  s.toList

/-- Strip a suffix, returning the stem when the suffix matches. -/
def stripSuffix? (w suf : List Char) : Option (List Char) :=
  if suf.isSuffixOf w then some (w.take (w.length - suf.length)) else none

/-- A suffix-rewrite rule. -/
structure PorterRule where
  suf : List Char
  repl : List Char

/-- Apply the first rule whose suffix matches: if its condition holds on
the stem the suffix is replaced, otherwise the word is returned unchanged
(no later rule is tried, as in the reference implementation). -/
def applyRules (cond : List Char → Bool) : List PorterRule → List Char → Option (List Char)
  | [], _ => none
  | r :: rs, w =>
    match stripSuffix? w r.suf with
    | some stem => if cond stem then some (stem ++ r.repl) else some w
    | none => applyRules cond rs w

/-- Porter step 1a: plural removal. -/
def step1a (w : List Char) : List Char :=
  match stripSuffix? w (sfx "sses") with
  | some stem => stem ++ sfx "ss"
  | none =>
    match stripSuffix? w (sfx "ies") with
    | some stem => stem ++ sfx "i"
    | none =>
      match stripSuffix? w (sfx "ss") with
      | some _ => w
      | none =>
        match stripSuffix? w (sfx "s") with
        | some stem => stem
        | none => w

/-- Porter step 1b fix-up after removing `ed`/`ing`. -/
def step1bFix (w : List Char) : List Char :=
  if (sfx "at").isSuffixOf w then w ++ sfx "e"
  else if (sfx "bl").isSuffixOf w then w ++ sfx "e"
  else if (sfx "iz").isSuffixOf w then w ++ sfx "e"
  else if endsDouble w && !(lastChar w == 'l' || lastChar w == 's' || lastChar w == 'z') then
    w.dropLast
  else if porterMeasure w == 1 && cvcEnd w then w ++ sfx "e"
  else w

/-- Porter step 1b: past tense and gerunds. -/
def step1b (w : List Char) : List Char :=
  match stripSuffix? w (sfx "eed") with
  | some stem => if porterMeasure stem > 0 then stem ++ sfx "ee" else w
  | none =>
    match stripSuffix? w (sfx "ed") with
    | some stem => if hasVowel stem then step1bFix stem else w
    | none =>
      match stripSuffix? w (sfx "ing") with
      | some stem => if hasVowel stem then step1bFix stem else w
      | none => w

/-- Porter step 1c: `y` to `i` after a vowel. -/
def step1c (w : List Char) : List Char :=
  match stripSuffix? w (sfx "y") with
  | some stem => if hasVowel stem then stem ++ sfx "i" else w
  | none => w

/-- Porter step 2 rule table. -/
def rules2 : List PorterRule :=
  [⟨sfx "ational", sfx "ate"⟩, ⟨sfx "tional", sfx "tion"⟩, ⟨sfx "enci", sfx "ence"⟩,
   ⟨sfx "anci", sfx "ance"⟩, ⟨sfx "izer", sfx "ize"⟩, ⟨sfx "abli", sfx "able"⟩,
   ⟨sfx "alli", sfx "al"⟩, ⟨sfx "entli", sfx "ent"⟩, ⟨sfx "eli", sfx "e"⟩,
   ⟨sfx "ousli", sfx "ous"⟩, ⟨sfx "ization", sfx "ize"⟩, ⟨sfx "ation", sfx "ate"⟩,
   ⟨sfx "ator", sfx "ate"⟩, ⟨sfx "alism", sfx "al"⟩, ⟨sfx "iveness", sfx "ive"⟩,
   ⟨sfx "fulness", sfx "ful"⟩, ⟨sfx "ousness", sfx "ous"⟩, ⟨sfx "aliti", sfx "al"⟩,
   ⟨sfx "iviti", sfx "ive"⟩, ⟨sfx "biliti", sfx "ble"⟩]

/-- Porter step 2. -/
def step2 (w : List Char) : List Char :=
  (applyRules (fun stem => porterMeasure stem > 0) rules2 w).getD w

/-- Porter step 3 rule table. -/
def rules3 : List PorterRule :=
  [⟨sfx "icate", sfx "ic"⟩, ⟨sfx "ative", sfx ""⟩, ⟨sfx "alize", sfx "al"⟩,
   ⟨sfx "iciti", sfx "ic"⟩, ⟨sfx "ical", sfx "ic"⟩, ⟨sfx "ful", sfx ""⟩,
   ⟨sfx "ness", sfx ""⟩]

/-- Porter step 3. -/
def step3 (w : List Char) : List Char :=
  (applyRules (fun stem => porterMeasure stem > 0) rules3 w).getD w

/-- Porter step 4 rule table, first part (before `ion`). -/
def rules4a : List PorterRule :=
  [⟨sfx "al", sfx ""⟩, ⟨sfx "ance", sfx ""⟩, ⟨sfx "ence", sfx ""⟩, ⟨sfx "er", sfx ""⟩,
   ⟨sfx "ic", sfx ""⟩, ⟨sfx "able", sfx ""⟩, ⟨sfx "ible", sfx ""⟩, ⟨sfx "ant", sfx ""⟩,
   ⟨sfx "ement", sfx ""⟩, ⟨sfx "ment", sfx ""⟩, ⟨sfx "ent", sfx ""⟩]

/-- Porter step 4 rule table, second part (after `ion`). -/
def rules4b : List PorterRule :=
  [⟨sfx "ou", sfx ""⟩, ⟨sfx "ism", sfx ""⟩, ⟨sfx "ate", sfx ""⟩, ⟨sfx "iti", sfx ""⟩,
   ⟨sfx "ous", sfx ""⟩, ⟨sfx "ive", sfx ""⟩, ⟨sfx "ize", sfx ""⟩]

/-- Porter step 4: long-suffix removal at measure above 1; `ion` also
requires the stem to end in `s` or `t`. -/
def step4 (w : List Char) : List Char :=
  let cond := fun stem => porterMeasure stem > 1
  match applyRules cond rules4a w with
  | some w2 => w2
  | none =>
    match stripSuffix? w (sfx "ion") with
    | some stem =>
      if cond stem && ((sfx "s").isSuffixOf stem || (sfx "t").isSuffixOf stem) then stem
      else w
    | none => (applyRules cond rules4b w).getD w

/-- Porter step 5a: final `e` removal. -/
def step5a (w : List Char) : List Char :=
  match stripSuffix? w (sfx "e") with
  | some stem =>
    let m := porterMeasure stem
    if m > 1 then stem
    else if m == 1 && !cvcEnd stem then stem
    else w
  | none => w

/-- Porter step 5b: final double `l` reduction. -/
def step5b (w : List Char) : List Char :=
  if porterMeasure w > 1 && endsDouble w && lastChar w == 'l' then w.dropLast else w

/-- Modelled from the spec: the Porter stemming of a word (the external
`porterstemmer` Go package used by `api/main.go` is not under `src/`).
Words of length at most 2 are returned unchanged, as in the reference
implementation. -/
def porterStem (s : String) : String :=
  let w := s.toList
  if w.length ≤ 2 then s
  else (step5b (step5a (step4 (step3 (step2 (step1c (step1b (step1a w)))))))).asString

/-! ## Query engine model (`api/main.go`) -/

/-- `Page` from `api/main.go`. -/
structure Page where
  id : Int
  url : String
  title : String
  description : String
deriving Repr, DecidableEq

/-- `Keyword` from `api/main.go`. -/
structure Keyword where
  word : String
  frequency : Int
deriving Repr, DecidableEq

/-- `CompletePage` from `api/main.go`. -/
structure CompletePage where
  page : Page
  keywords : List Keyword
deriving Repr, DecidableEq

/-- The tables the search API queries: `pages`, `page_keywords` (rows
`(page_id, word, frequency)`) and `backlinks` (rows
`(source_page_id, target_page_id)`), each in table order (SQL row order is
not specified; the model fixes table order). -/
structure Db where
  pages : List Page
  pageKeywords : List (Int × Keyword)
  backlinks : List (Int × Int)
deriving Repr, DecidableEq

/-- Increment the count of a key in an association-list map, as a Go
`map[K]int` increment (insertion order retained). -/
def bump [BEq α] : List (α × Nat) → α → List (α × Nat)
  | [], k => [(k, 1)]
  | (k0, v) :: t, k => if k0 == k then (k0, v + 1) :: t else (k0, v) :: bump t k

/-- Read a key from an association-list map with Go's zero default. -/
def countOfKey [BEq α] (m : List (α × Nat)) (w : α) : Nat :=
  ((m.find? (fun p => p.1 == w)).map Prod.snd).getD 0

/-- Read a key from an `Int`-valued association-list map with Go's zero
default. -/
def lookupZ (m : List (Int × Int)) (k : Int) : Int :=
  ((m.find? (fun p => p.1 == k)).map Prod.snd).getD 0

/-- Split a character list on characters satisfying `p`. -/
def splitPred (p : Char → Bool) : List Char → List (List Char)
  | [] => [[]]
  | x :: xs =>
    let r := splitPred p xs
    if p x then [] :: r
    else
      match r with
      | [] => [[x]]
      | h :: t => (x :: h) :: t

/-- Model of Go `strings.Fields`: the maximal whitespace-free substrings. -/
def stringFields (s : String) : List String :=
  ((splitPred Char.isWhitespace s.toList).filter (fun l => l ≠ [])).map List.asString

/-- `extractKeywords` from `api/main.go`: split the query on whitespace,
lowercase each token, Porter-stem it and count occurrences.  The Go
`map[string]int` is modelled as an association list in insertion order. -/
def extractKeywords (query : String) : List (String × Nat) :=
  (stringFields query).foldl (fun m w => bump m (porterStem (lowerStr w))) []

/-- `getPagesWithKeywords` from `api/main.go`: the distinct pages having at
least one `page_keywords` row whose word is among the query keywords, in
table order. -/
def getPagesWithKeywords (db : Db) (kwList : List String) : List Page :=
  db.pages.filter (fun p =>
    db.pageKeywords.any (fun r => r.1 == p.id && kwList.contains r.2.word))

/-- `getKeywordsByPageID` from `api/main.go`. -/
def getKeywordsByPageID (db : Db) (pid : Int) : List Keyword :=
  (db.pageKeywords.filter (fun r => r.1 == pid)).map Prod.snd

/-- `getBacklinks` from `api/main.go`: the source page ids of `backlinks`
rows targeting `pid`. -/
def getBacklinks (db : Db) (pid : Int) : List Int :=
  (db.backlinks.filter (fun r => r.2 == pid)).map Prod.fst

/-- The candidate pages of a query with their keyword lists, as built by
the first half of `search` in `api/main.go`. -/
def candidatePages (db : Db) (query : String) : List CompletePage :=
  (getPagesWithKeywords db ((extractKeywords query).map Prod.fst)).map
    (fun p => { page := p, keywords := getKeywordsByPageID db p.id })

/-- The backlink count map of `search`: for each candidate page (in order)
every backlink source is counted. -/
def backlinksMap (db : Db) (cands : List CompletePage) : List (Int × Nat) :=
  cands.foldl (fun m cp => (getBacklinks db cp.page.id).foldl (fun m2 b => bump m2 b) m) []

/-- The relevance score of one candidate page in `search`: the sum over
its keyword rows of query-frequency times row-frequency. -/
def relevanceScore (qk : List (String × Nat)) (cp : CompletePage) : Int :=
  cp.keywords.foldl (fun score kw =>
    match qk.find? (fun p => p.1 == kw.word) with
    | some p => score + (p.2 : Int) * kw.frequency
    | none => score) 0

/-- The relevance scores of all candidates, keyed by page id. -/
def relScores (qk : List (String × Nat)) (cands : List CompletePage) : List (Int × Int) :=
  cands.map (fun cp => (cp.page.id, relevanceScore qk cp))

/-- The page rank computed by `search` in `api/main.go`: starting from the
rating factor `1`, every entry `(q, c)` of the backlink count map with
`q ≠ pid` contributes `rel(q) / c`, and the total is multiplied by the
ranker constant `0.85`.  Go `float64` arithmetic is modelled exactly over
`ℚ` (the sum order, immaterial over `ℚ`, stands in for Go's random map
iteration order). -/
def pageRank (rel : List (Int × Int)) (bl : List (Int × Nat)) (pid : Int) : ℚ :=
  (bl.foldl (fun acc p =>
    if p.1 == pid then acc else acc + (lookupZ rel p.1 : ℚ) / (p.2 : ℚ)) 1) * (17 / 20)

/-- The rank `search` assigns to a page id for a query. -/
def searchRank (db : Db) (query : String) (pid : Int) : ℚ :=
  pageRank (relScores (extractKeywords query) (candidatePages db query))
    (backlinksMap db (candidatePages db query)) pid

/-- `search` from `api/main.go`: `none` models the `no query provided`
error; otherwise the candidate pages sorted by descending page rank
(`sort.Slice` guarantees an ordering consistent with the comparator and no
more; the model fixes merge sort). -/
def search (db : Db) (query : String) : Option (List CompletePage) :=
  if query = "" then none
  else
    some ((candidatePages db query).mergeSort
      (fun a b => searchRank db query a.page.id ≥ searchRank db query b.page.id))

/-! ## Claim-side ranking definitions (C1)

These follow the words of the claim: `score(p) = rel(p) + auth(p)` with
`auth(p) = 0.85 × Σ over q linking to p of rel(q)/outdeg(q)` and base value
`1.0` for pages without inbound edges.
-/

/-- Outdegree of a page in the `backlinks` table. -/
def outdeg (db : Db) (q : Int) : Nat :=
  (db.backlinks.filter (fun r => r.1 == q)).length

/-- The pages linking to `p` in the `backlinks` table. -/
def inlinks (db : Db) (p : Int) : List Int :=
  (db.backlinks.filter (fun r => r.2 == p)).map Prod.fst

/-- The authority of the claim: damped backlink relevance, base `1` for
pages with no inbound edges. -/
def specAuth (db : Db) (rel : Int → ℚ) (p : Int) : ℚ :=
  if inlinks db p = [] then 1
  else (17 / 20) * ((inlinks db p).map (fun q => rel q / (outdeg db q : ℚ))).sum

/-- The final score of the claim: relevance plus authority. -/
def specScore (db : Db) (rel : Int → ℚ) (p : Int) : ℚ :=
  rel p + specAuth db rel p

/-- Modelled from the spec: the configuration defaults
`MINIMUM_WORD_LENGTH = 2` and `MAXIMUM_WORD_LENGTH = 128` (§6); the Go API
code under `src/` reads no such configuration. -/
def MIN_WORD_LEN : Nat := 2

/-- Modelled from the spec: `MAXIMUM_WORD_LENGTH` default (§6). -/
def MAX_WORD_LEN : Nat := 128

/-- Modelled from the spec: a stop-word list containing `the`, the spec's
own example stop-word (§8, property 9); the Go API code under `src/` reads
no stop-word configuration. -/
def exampleStopWords : List String := ["the"]

/-- Two pages for the ranking counterexample: page 1 has keyword `cat`
with frequency 10, page 2 has `cat` with frequency 1, and page 1 links to
page 2. -/
def exDb : Db :=
  { pages := [{ id := 1, url := "http://h/a", title := "A", description := "" },
              { id := 2, url := "http://h/b", title := "B", description := "" }],
    pageKeywords := [(1, { word := "cat", frequency := 10 }),
                     (2, { word := "cat", frequency := 1 })],
    backlinks := [(1, 2)] }

/-- The relevance of the two candidate pages of `exDb` for query `cat`,
as a function. -/
def exRel : Int → ℚ :=
  fun q => if q = 1 then 10 else if q = 2 then 1 else 0

/-! ## Robots model (C3)

`isAllowedByRobots` in `crawler.go` fetches and parses `robots.txt`
through the external `temoto/robotstxt` library (not under `src/`).  The
parsed rule set is modelled abstractly: a group has its user-agents and a
verdict function per path (`true` = allowed), which is all the crawler
code consults.
-/

/-- A robots.txt rule group, modelling `robotstxt.Group`: the user-agents
it applies to and its per-path verdict (`Test`, `true` = allowed). -/
structure RobotsGroup where
  agents : List String
  test : String → Bool

/-- A parsed robots.txt file, modelling `robotstxt.RobotsData`. -/
structure RobotsData where
  groups : List RobotsGroup

/-- Model of `robotstxt.RobotsData.FindGroup` (external library): the
first group listing the agent, else the first group listing `*`, else an
allow-all default (the library never returns nil, so the nil-fallback in
`crawler.go` is never taken). -/
def findGroup (r : RobotsData) (agent : String) : RobotsGroup :=
  match r.groups.find? (fun g => g.agents.contains agent) with
  | some g => g
  | none =>
    match r.groups.find? (fun g => g.agents.contains "*") with
    | some g => g
    | none => { agents := [], test := fun _ => true }

/-- The body stage of a robots.txt response: reading the body can fail,
parsing it can fail, or it parses to a rule set. -/
inductive RobotsBody where
  | readError
  | parseError
  | parsed (data : RobotsData)

/-- Outcome of the `client.Get` on `robots.txt`. -/
inductive RobotsFetch where
  | fetchError
  | response (status : Nat) (body : RobotsBody)

/-- `UserAgent` from `crawler.go`. -/
def UserAgent : String := "GSE-Bot"

/-- `isAllowedByRobots` from `crawler.go`: permissive (`true`) when the
robots.txt fetch errors, returns a non-200 status, its body cannot be
read, or it fails to parse; otherwise the verdict of the group found for
the configured user-agent on the target path. -/
def isAllowedByRobots (robotsResult : RobotsFetch) (agent path : String) : Bool :=
  match robotsResult with
  | .fetchError => true
  | .response status body =>
    if status ≠ 200 then true
    else
      match body with
      | .readError => true
      | .parseError => true
      | .parsed robots => (findGroup robots agent).test path

/-! ## Crawl loop model (C4, C5, C6, C9)

Sequential model of `StartCrawling`/`fetch` from `crawler.go`: one worker,
spawned goroutines run before the next queue pop, network time is zero and
the clock advances only at `time.Sleep`.  Page rows keep only URL and
last-visited time (the title/description columns play no part in these
claims).
-/

/-- `RetryDelay` from `crawler.go`, in seconds. -/
def RetryDelay : Nat := 2

/-- `MaxRetries` from `crawler.go`. -/
def MaxRetries : Nat := 3

/-- `RevisitDelay` from `crawler.go` (10 minutes), in seconds. -/
def RevisitDelay : Nat := 600

/-- Modelled from the spec: the configuration default `CRAWL_DELAY = 1`
second (§6); `crawler.go` has no such constant. -/
def CRAWL_DELAY : Nat := 1

/-- `SeedURLs` from `crawler.go`. -/
def SeedURLs : List String :=
  ["https://www.google.com/", "https://www.bing.com/", "https://www.yahoo.com/",
   "https://www.bbc.com/", "https://www.nytimes.com/", "https://www.cnn.com/",
   "https://www.aljazeera.com/", "https://www.facebook.com/", "https://www.twitter.com/",
   "https://www.instagram.com/", "https://www.linkedin.com/", "https://www.ncbi.nlm.nih.gov/",
   "https://www.academia.edu/", "https://scholar.google.com/", "https://www.amazon.com/",
   "https://www.ebay.com/", "https://www.walmart.com/", "https://www.usa.gov/",
   "https://www.gov.uk/", "https://www.australia.gov.au/", "https://www.wordpress.com/",
   "https://www.blogger.com/", "https://medium.com/", "https://www.wikipedia.org/",
   "https://www.britannica.com/", "https://www.dictionary.com/", "https://www.techcrunch.com/",
   "https://www.stackoverflow.com/", "https://www.reddit.com/r/technology/",
   "https://www.harvard.edu/", "https://www.mit.edu/", "https://www.ox.ac.uk/",
   "https://www.data.gov/", "https://www.worldbank.org/", "https://www.datahub.io/",
   "https://www.youtube.com/", "https://www.vimeo.com/", "https://www.dailymotion.com/",
   "https://www.reddit.com/", "https://www.quora.com/", "https://www.stackexchange.com/",
   "https://www.webmd.com/", "https://www.mayoclinic.org/", "https://www.cdc.gov/"]

/-- Outcome of one HTTP GET (`client.Do`): Go reports DNS failures,
refused connections and timeouts alike as a single error value, or a
response arrives with a status and a (parsed) body. -/
inductive FetchResult where
  | transportError
  | response (status : Nat) (body : HNode)

/-- The crawler's environment: the web, the robots.txt answers per robots
URL, and the value drawn by `rand.Intn(len(SeedURLs))`. -/
structure CrawlEnv where
  web : String → FetchResult
  robotsFetch : String → RobotsFetch
  seedPick : Nat

/-- Crawler state: the Redis queue (head = most recent `LPush`; `RPop`
takes the last element), the visited set, the `pages` table rows
`(url, last_visited)`, the trace of issued page requests `(time, url)`
newest first, and the clock. -/
structure CrawlState where
  queue : List String
  visited : List String
  pages : List (String × Nat)
  trace : List (Nat × String)
  now : Nat
deriving Repr, DecidableEq

/-- `shouldVisit` from `crawler.go`: `true` when the URL has no `pages`
row or its last visit is older than `RevisitDelay`. -/
def shouldVisit (st : CrawlState) (url : String) : Bool :=
  match st.pages.find? (fun p => p.1 == url) with
  | none => true
  | some p => st.now - p.2 > RevisitDelay

/-- `saveContent` from `crawler.go`: upsert the page row keyed by URL with
`last_visited = now` (title and description columns omitted from the
model). -/
def saveContent (st : CrawlState) (url : String) : CrawlState :=
  if st.pages.any (fun p => p.1 == url) then
    { st with pages := st.pages.map (fun p => if p.1 == url then (p.1, st.now) else p) }
  else
    { st with pages := st.pages ++ [(url, st.now)] }

/-- What a finished `fetch` body spawns: a retry goroutine, a
fetch-a-new-seed goroutine, or nothing. -/
inductive Spawn where
  | retry (url : String) (retryCount : Nat)
  | seed
  | done
deriving Repr, DecidableEq

/-- One execution of the body of `fetch` from `crawler.go` on `rawurl`
with retry counter `rc`: parse the URL (drop on failure); re-queue without
a request when `shouldVisit` is false; drop when already in the visited
set; drop when robots.txt disallows; otherwise issue the request.  A
transport error sleeps `RetryDelay` and spawns a retry while
`rc < MaxRetries`, after which a random-seed fetch is spawned; a non-200
status drops the URL with no retry and no visited-marking; a 200 response
saves the page, marks the URL visited and LPushes every extracted link. -/
def fetchStep (env : CrawlEnv) (st : CrawlState) (rawurl : String) (rc : Nat) :
    CrawlState × Spawn :=
  match parseURL rawurl with
  | none => (st, .done)
  | some u =>
    let us := u.str
    if !(shouldVisit st us) then
      ({ st with queue := us :: st.queue }, .done)
    else if st.visited.contains us then
      (st, .done)
    else if !(isAllowedByRobots (env.robotsFetch (u.scheme ++ "://" ++ u.host ++ "/robots.txt"))
              UserAgent u.path) then
      (st, .done)
    else
      let st1 := { st with trace := (st.now, us) :: st.trace }
      match env.web us with
      | .transportError =>
        if rc < MaxRetries then
          ({ st1 with now := st1.now + RetryDelay }, .retry rawurl (rc + 1))
        else
          (st1, .seed)
      | .response status body =>
        if status ≠ 200 then (st1, .done)
        else
          let st2 := saveContent st1 us
          let st3 := { st2 with visited := us :: st2.visited }
          ((extractLinks u body).foldl (fun s l => { s with queue := l :: s.queue }) st3,
           .done)

/-- `RPop` on the model queue: the last element, oldest first. -/
def rpop (q : List String) : Option (String × List String) :=
  match q.getLast? with
  | none => none
  | some u => some (u, q.dropLast)

/-- One supervisor pick of `StartCrawling`: pop the oldest queue entry or,
when the queue is empty, select the seed URL given by the random draw.
The pick never consults the `pages` table. -/
def supervisorPick (st : CrawlState) (draw : Nat) : String × List String :=
  match rpop st.queue with
  | some (u, q2) => (u, q2)
  | none => (SeedURLs.getD (draw % SeedURLs.length) "", st.queue)

/-- Sequential crawl run with fuel: pending spawned fetches run before the
supervisor picks again; every picked URL is fetched with retry counter
`0`. -/
def crawlRun (env : CrawlEnv) : Nat → CrawlState → List (String × Nat) → CrawlState
  | 0, st, _ => st
  | fuel + 1, st, [] =>
    let pick := supervisorPick st env.seedPick
    crawlRun env fuel { st with queue := pick.2 } [(pick.1, 0)]
  | fuel + 1, st, (u, rc) :: rest =>
    let r := fetchStep env st u rc
    match r.2 with
    | .retry u2 rc2 => crawlRun env fuel r.1 ((u2, rc2) :: rest)
    | .seed =>
      crawlRun env fuel r.1
        ((SeedURLs.getD (env.seedPick % SeedURLs.length) "", 0) :: rest)
    | .done => crawlRun env fuel r.1 rest

/-! ## Concrete crawl instances used by counterexamples and witnesses -/

/-- The candidate page of id 1 for query `cat` over `exDb`. -/
def cpA : CompletePage :=
  { page := { id := 1, url := "http://h/a", title := "A", description := "" },
    keywords := [{ word := "cat", frequency := 10 }] }

/-- The candidate page of id 2 for query `cat` over `exDb`. -/
def cpB : CompletePage :=
  { page := { id := 2, url := "http://h/b", title := "B", description := "" },
    keywords := [{ word := "cat", frequency := 1 }] }

/-- A three-page chain: `h/0` links to `h/1` links to `h/2`; robots.txt is
unreachable everywhere (permissive). -/
def chainEnv : CrawlEnv :=
  { web := fun u =>
      if u = "http://h/0" then .response 200 (anchorTo "http://h/1")
      else if u = "http://h/1" then .response 200 (anchorTo "http://h/2")
      else if u = "http://h/2" then .response 200 (.text "leaf")
      else .transportError,
    robotsFetch := fun _ => .fetchError,
    seedPick := 0 }

/-- Initial state with the chain seed queued. -/
def chainSt0 : CrawlState :=
  { queue := ["http://h/0"], visited := [], pages := [], trace := [], now := 0 }

/-- Two link-free pages on the same host `h`. -/
def twoEnv : CrawlEnv :=
  { web := fun u =>
      if u = "http://h/a" then .response 200 (.text "x")
      else if u = "http://h/b" then .response 200 (.text "y")
      else .transportError,
    robotsFetch := fun _ => .fetchError,
    seedPick := 0 }

/-- Initial state with both same-host URLs queued (`h/a` is popped
first). -/
def twoSt0 : CrawlState :=
  { queue := ["http://h/b", "http://h/a"], visited := [], pages := [], trace := [], now := 0 }

/-- Every request fails at the transport level. -/
def errEnv : CrawlEnv :=
  { web := fun _ => .transportError, robotsFetch := fun _ => .fetchError, seedPick := 0 }

/-- Every request returns HTTP 500. -/
def e500Env : CrawlEnv :=
  { web := fun _ => .response 500 (.text ""), robotsFetch := fun _ => .fetchError, seedPick := 0 }

/-- An empty crawler state. -/
def freshSt : CrawlState :=
  { queue := [], visited := [], pages := [], trace := [], now := 0 }

/-- The first seed URL answers with a link-free page. -/
def seedEnv : CrawlEnv :=
  { web := fun u =>
      if u = "https://www.google.com/" then .response 200 (.text "g")
      else .transportError,
    robotsFetch := fun _ => .fetchError,
    seedPick := 0 }

/-- A state whose queue is empty while the `pages` table is not. -/
def oldPagesSt : CrawlState :=
  { queue := [], visited := [], pages := [("http://old/", 0)], trace := [], now := 1000 }

/-- A state whose `pages` row for `http://h/a` is younger than
`RevisitDelay`. -/
def recentSt : CrawlState :=
  { queue := [], visited := [], pages := [("http://h/a", 0)], trace := [], now := 0 }

/-- The parsed form of `http://h/0`. -/
def chainU0 : GoURL :=
  { scheme := "http", host := "h", path := "/0", query := "", fragment := "" }

/-- A robots.txt rule set whose only group applies to `GSE-Bot` and
disallows exactly `/private`. -/
def wRobots : RobotsData :=
  ⟨[⟨["GSE-Bot"], fun p => !(p == "/private")⟩]⟩

/-! ## Helper lemmas -/

theorem isValidURL_spec (l : String) (h : isValidURL l = true) :
    ∃ u, parseURL l = some u ∧ (u.scheme = "http" ∨ u.scheme = "https") ∧ u.fragment = "" := by
  unfold isValidURL at h
  cases hp : parseURL l with
  | none => rw [hp] at h; simp at h
  | some u =>
    rw [hp] at h
    refine ⟨u, rfl, ?_, ?_⟩
    · by_cases h1 : u.scheme ≠ "http" ∧ u.scheme ≠ "https"
      · simp [h1] at h
      · push_neg at h1
        by_cases h2 : u.scheme = "http"
        · exact Or.inl h2
        · exact Or.inr (h1 h2)
    · by_cases h1 : u.scheme ≠ "http" ∧ u.scheme ≠ "https"
      · simp [h1] at h
      · by_cases h2 : u.fragment ≠ ""
        · simp [h1, h2] at h
        · push_neg at h2; exact h2

theorem mem_extractLinksList_valid (base : GoURL) (l : String) :
    ∀ ns, l ∈ extractLinksList base ns → isValidURL l = true := by
  intro ns
  induction ns using extractLinksList.induct base with
  | case1 => intro h; simp [extractLinksList] at h
  | case2 d rest ih =>
    intro h
    rw [extractLinksList] at h
    exact ih h
  | case3 tag attrs cs rest ih =>
    intro h
    rw [extractLinksList] at h
    simp only [List.mem_append] at h
    rcases h with h | h
    · by_cases htag : tag = "a"
      · rw [if_pos htag] at h
        cases hfind : List.find? (fun a => a.key == "href") attrs with
        | none => simp only [hfind] at h; simp at h
        | some a =>
          simp only [hfind] at h
          by_cases hc : resolveURL base a.val ≠ "" ∧ isValidURL (resolveURL base a.val) = true
          · rw [if_pos hc] at h
            simp only [List.mem_singleton] at h
            subst h
            exact hc.2
          · rw [if_neg hc] at h; simp at h
      · rw [if_neg htag] at h; simp at h
    · exact ih h

theorem extractLinksList_no_anchor (base : GoURL) :
    ∀ ns, hasAnchorList ns = false → extractLinksList base ns = [] := by
  intro ns
  induction ns using extractLinksList.induct base with
  | case1 => intro _; rw [extractLinksList]
  | case2 d rest ih =>
    intro h
    rw [hasAnchorList] at h
    rw [extractLinksList]
    exact ih h
  | case3 tag attrs cs rest ih =>
    intro h
    rw [hasAnchorList] at h
    simp only [Bool.or_eq_false_iff, beq_eq_false_iff_ne] at h
    rw [extractLinksList]
    rw [if_neg h.1, List.nil_append]
    exact ih h.2

theorem extractLinksList_eq_filterMap (base : GoURL) :
    ∀ ns, extractLinksList base ns =
      (anchorHrefsList ns).filterMap (fun href =>
        let r := resolveURL base href
        if r ≠ "" ∧ isValidURL r then some r else none) := by
  intro ns
  induction ns using extractLinksList.induct base with
  | case1 => rw [extractLinksList, anchorHrefsList]; rfl
  | case2 d rest ih => rw [extractLinksList, anchorHrefsList]; exact ih
  | case3 tag attrs cs rest ih =>
    rw [extractLinksList, anchorHrefsList, List.filterMap_append, ih]
    congr 1
    by_cases htag : tag = "a"
    · rw [if_pos htag, if_pos htag]
      cases hfind : List.find? (fun a => a.key == "href") attrs with
      | none => simp only [hfind]; rfl
      | some a =>
        simp only [hfind]
        by_cases hc : resolveURL base a.val ≠ "" ∧ isValidURL (resolveURL base a.val) = true
        · rw [if_pos hc]
          simp only [List.filterMap_cons, List.filterMap_nil]
          rw [if_pos hc]
        · rw [if_neg hc]
          simp only [List.filterMap_cons, List.filterMap_nil]
          rw [if_neg hc]
    · rw [if_neg htag, if_neg htag]; rfl

theorem extractMetadataList_spec (acc : String × String) (ns : List HNode)
    (h : metaLeaves ns = true) :
    extractMetadataList acc ns =
      ((if acc.1 = "" then ((titlesList ns).find? (fun s => !(s == ""))).getD "" else acc.1),
       (metaDescsList ns).getLastD acc.2) := by
  induction acc, ns using extractMetadataList.induct with
  | case1 acc =>
    rw [extractMetadataList, titlesList, metaDescsList]
    obtain ⟨t, d⟩ := acc
    by_cases h1 : t = ""
    · simp [h1]
    · simp [h1]
  | case2 acc data rest ih =>
    rw [metaLeaves] at h
    rw [extractMetadataList, titlesList, metaDescsList]
    exact ih h
  | case3 acc attrs cs rest c hmc acc1 ih =>
    rw [metaLeaves] at h
    simp only [Bool.and_eq_true, Bool.or_eq_true, List.isEmpty_iff] at h
    have hcs : cs = [] := by
      rcases h.1 with h1 | h1
      · simp at h1
      · exact h1
    subst hcs
    have hF : ¬(("meta" : String) = "title" ∧ acc.1 = "") := fun hcon => absurd hcon.1 (by decide)
    have hT : (("meta" : String) = "meta") := rfl
    have hacc1 : acc1 = acc := by simp only [acc1]; rw [dif_neg hF]
    have ih2 := ih h.2
    rw [hacc1] at ih2
    rw [extractMetadataList, titlesList, metaDescsList, hmc]
    rw [if_pos hT, if_pos hT, if_neg hF, if_neg (show ¬(("meta" : String) = "title") from by decide)]
    dsimp only
    rw [ih2]
    simp only [Option.toList_some, List.singleton_append, List.nil_append, List.getLastD_cons]
  | case4 acc attrs cs rest hmc acc1 ih =>
    rw [metaLeaves] at h
    simp only [Bool.and_eq_true, Bool.or_eq_true, List.isEmpty_iff] at h
    have hF : ¬(("meta" : String) = "title" ∧ acc.1 = "") := fun hcon => absurd hcon.1 (by decide)
    have hT : (("meta" : String) = "meta") := rfl
    have hacc1 : acc1 = acc := by simp only [acc1]; rw [dif_neg hF]
    have ih2 := ih h.2
    rw [hacc1] at ih2
    rw [extractMetadataList, titlesList, metaDescsList, hmc]
    rw [if_pos hT, if_pos hT, if_neg hF, if_neg (show ¬(("meta" : String) = "title") from by decide)]
    dsimp only
    rw [ih2]
    simp only [Option.toList_none, List.nil_append]
  | case5 acc tag attrs cs rest acc1 hne ih =>
    rw [metaLeaves] at h
    simp only [Bool.and_eq_true] at h
    have ih2 := ih h.2
    rw [extractMetadataList, titlesList, metaDescsList]
    rw [if_neg hne, if_neg hne]
    by_cases ht : tag = "title"
    · by_cases hac : acc.1 = ""
      · have hacc1 : acc1 = (textContentList cs, acc.2) := by
          simp only [acc1]; rw [dif_pos ⟨ht, hac⟩]
        rw [hacc1] at ih2
        rw [if_pos ⟨ht, hac⟩]
        rw [ih2, if_pos ht, if_pos hac]
        by_cases htc : textContentList cs = ""
        · simp [htc, hac]
        · simp [htc]
      · have hF : ¬(tag = "title" ∧ acc.1 = "") := fun hcon => hac hcon.2
        have hacc1 : acc1 = acc := by simp only [acc1]; rw [dif_neg hF]
        rw [hacc1] at ih2
        rw [if_neg hF]
        rw [ih2, if_neg hac, if_neg hac]
        simp only [List.nil_append]
    · have hF : ¬(tag = "title" ∧ acc.1 = "") := fun hcon => ht hcon.1
      have hacc1 : acc1 = acc := by simp only [acc1]; rw [dif_neg hF]
      rw [hacc1] at ih2
      rw [if_neg hF]
      rw [ih2, if_neg ht]
      simp only [List.nil_append]

/-! ## Claim C10 -/

/-- C10: for every base URL and parsed body, every string returned by
`extractLinks` parses as a URL whose scheme is `http` or `https` and whose
fragment is empty; the extraction is a total function on parsed trees and
returns the empty list when the tree has no anchor element. -/
theorem claim_extractLinks_valid_urls (base : GoURL) (doc : HNode) :
    (∀ l ∈ extractLinks base doc, ∃ u, parseURL l = some u ∧
      (u.scheme = "http" ∨ u.scheme = "https") ∧ u.fragment = "") ∧
    (hasAnchorList [doc] = false → extractLinks base doc = []) := by
  constructor
  · intro l hl
    exact isValidURL_spec l (mem_extractLinksList_valid base l [doc] hl)
  · intro h
    exact extractLinksList_no_anchor base [doc] h

/-- Witness for C10 at a concrete page: the relative href `b` on
`http://h/a` yields a link that parses with scheme `http` and no fragment,
and a page with no anchors yields no links. -/
theorem claim_extractLinks_valid_urls_witness :
    (∃ u, parseURL "http://h/b" = some u ∧
      (u.scheme = "http" ∨ u.scheme = "https") ∧ u.fragment = "") ∧
    extractLinks exBase (HNode.elem "p" [] []) = [] := by
  constructor
  · exact (claim_extractLinks_valid_urls exBase (HNode.elem "body" [] [anchorTo "b"])).1
      "http://h/b"
      (by simp [extractLinks, extractLinksList, anchorTo,
            show resolveURL exBase "b" = "http://h/b" from by decide,
            show isValidURL "http://h/b" = true from by decide])
  · exact (claim_extractLinks_valid_urls exBase (HNode.elem "p" [] [])).2
      (by simp [hasAnchorList])

/-! ## Claim C7 -/

/-- C7 counterexample: on the page `http://h/a` whose body holds two
anchors to `http://h/a` itself, `extractLinks` returns the self-link twice:
the output contains the (normalized) base URL and it contains duplicates,
contradicting the claim that self-links are removed and duplicates
collapsed. -/
theorem claim_no_selflinks_counterexample :
    parseURL "http://h/a" = some exBase ∧
    GoURL.str exBase = "http://h/a" ∧
    extractLinks exBase selfLinkDoc = ["http://h/a", "http://h/a"] ∧
    ¬ (extractLinks exBase selfLinkDoc).Nodup ∧
    GoURL.str exBase ∈ extractLinks exBase selfLinkDoc := by
  have he : extractLinks exBase selfLinkDoc = ["http://h/a", "http://h/a"] := by
    simp [extractLinks, extractLinksList, selfLinkDoc, anchorTo,
      show resolveURL exBase "http://h/a" = "http://h/a" from by decide,
      show isValidURL "http://h/a" = true from by decide]
  refine ⟨by decide, by decide, he, ?_, ?_⟩
  · rw [he]; decide
  · rw [he, show GoURL.str exBase = "http://h/a" from by decide]; decide

/-- C7 amended: `extractLinks` performs no self-link or duplicate
filtering; its output is exactly the document-order list of the first
`href` of each anchor, resolved against the base URL, keeping each
resolution that is non-empty and a valid fragment-free http(s) URL —
self-links and duplicates included. -/
theorem claim_extractLinks_retains_all_hrefs (base : GoURL) (doc : HNode) :
    extractLinks base doc =
      (anchorHrefsList [doc]).filterMap (fun href =>
        let r := resolveURL base href
        if r ≠ "" ∧ isValidURL r then some r else none) :=
  extractLinksList_eq_filterMap base [doc]

/-! ## Claim C8 -/

/-- C8 counterexample: the title is not trimmed (`" x "` is returned with
its spaces), and when two `meta description` elements are present the
description is taken from the last one, not the first. -/
theorem claim_metadata_counterexample :
    extractMetadata spacedTitleDoc = (" x ", "") ∧
    (extractMetadata spacedTitleDoc).1 ≠ "x" ∧
    extractMetadata twoMetaDoc = ("", "second") ∧
    (extractMetadata twoMetaDoc).2 ≠ "first" := by
  have h1 : extractMetadata spacedTitleDoc = (" x ", "") := by
    simp [extractMetadata, extractMetadataList, spacedTitleDoc, metaContent, textContentList]
  have h2 : extractMetadata twoMetaDoc = ("", "second") := by
    simp [extractMetadata, extractMetadataList, twoMetaDoc, metaContent,
      show lowerStr "Description" = "description" from by decide,
      show lowerStr "description" = "description" from by decide]
  refine ⟨h1, ?_, h2, ?_⟩
  · rw [h1]; decide
  · rw [h2]; decide

/-- C8 amended: provided `meta` elements are childless (as the HTML parser
guarantees for this void element), metadata extraction returns as title the
untrimmed text of the first `title` element with non-empty text (empty if
none), and as description the `content` value of the last `meta` element
whose `name` equals `description` case-insensitively and that has a
`content` attribute (empty if none). -/
theorem claim_extractMetadata_characterization (doc : HNode)
    (h : metaLeaves [doc] = true) :
    extractMetadata doc =
      (((titlesList [doc]).find? (fun s => !(s == ""))).getD "",
       (metaDescsList [doc]).getLastD "") := by
  rw [extractMetadata, extractMetadataList_spec ("", "") [doc] h]
  simp

/-- Witness for the amended C8 on a concrete page with two `meta
description` elements. -/
theorem claim_extractMetadata_characterization_witness :
    extractMetadata twoMetaDoc =
      (((titlesList [twoMetaDoc]).find? (fun s => !(s == ""))).getD "",
       (metaDescsList [twoMetaDoc]).getLastD "") :=
  claim_extractMetadata_characterization twoMetaDoc
    (by simp [metaLeaves, twoMetaDoc])

theorem perm_pair_cases {α : Type} {l : List α} {a b : α} (h : l.Perm [a, b]) :
    l = [a, b] ∨ l = [b, a] := by
  have hlen : l.length = 2 := by simpa using h.length_eq
  match l, hlen, h with
  | [x, y], _, h =>
    have hx : x ∈ [a, b] := h.mem_iff.mp (by simp)
    have hy : y ∈ [a, b] := h.mem_iff.mp (by simp)
    have ha : a ∈ [x, y] := h.symm.mem_iff.mp (by simp)
    have hb : b ∈ [x, y] := h.symm.mem_iff.mp (by simp)
    simp only [List.mem_cons, List.mem_singleton, List.not_mem_nil, or_false] at hx hy ha hb
    rcases hx with hx | hx <;> rcases hy with hy | hy
    · subst hx; subst hy
      rcases hb with hb | hb
      · exact Or.inl (by rw [hb])
      · exact Or.inl (by rw [hb])
    · subst hx; subst hy; exact Or.inl rfl
    · subst hx; subst hy; exact Or.inr rfl
    · subst hx; subst hy
      rcases ha with ha | ha
      · exact Or.inr (by rw [ha])
      · exact Or.inr (by rw [ha])

theorem search_sorted (db : Db) (query : String) (h : query ≠ "") :
    ∃ res, search db query = some res ∧
      res.Perm (candidatePages db query) ∧
      res.Pairwise (fun a b => searchRank db query a.page.id ≥ searchRank db query b.page.id) := by
  refine ⟨_, by rw [search, if_neg h], List.mergeSort_perm _ _, ?_⟩
  have hp := @List.sorted_mergeSort CompletePage
    (fun a b => decide (searchRank db query a.page.id ≥ searchRank db query b.page.id))
    (fun a b c h1 h2 => by
      simp only [decide_eq_true_eq] at h1 h2 ⊢
      exact le_trans h2 h1)
    (fun a b => by
      simp only [Bool.or_eq_true, decide_eq_true_eq]
      exact le_total _ _)
    (candidatePages db query)
  exact hp.imp (fun hx => by simpa using hx)

theorem searchRank_exDb_one : searchRank exDb "cat" 1 = 17 / 20 := by
  rw [searchRank, show extractKeywords "cat" = [("cat", 1)] from by decide,
    show candidatePages exDb "cat" = [cpA, cpB] from by decide,
    show backlinksMap exDb [cpA, cpB] = [(1, 1)] from by decide,
    show relScores [("cat", 1)] [cpA, cpB] = [(1, 10), (2, 1)] from by decide,
    pageRank]
  norm_num [lookupZ, List.find?]

theorem searchRank_exDb_two : searchRank exDb "cat" 2 = 187 / 20 := by
  rw [searchRank, show extractKeywords "cat" = [("cat", 1)] from by decide,
    show candidatePages exDb "cat" = [cpA, cpB] from by decide,
    show backlinksMap exDb [cpA, cpB] = [(1, 1)] from by decide,
    show relScores [("cat", 1)] [cpA, cpB] = [(1, 10), (2, 1)] from by decide,
    pageRank]
  norm_num [lookupZ, List.find?]

theorem bump_countOfKey [BEq α] [LawfulBEq α] (m : List (α × Nat)) (x w : α) :
    countOfKey (bump m x) w = countOfKey m w + (if x == w then 1 else 0) := by
  induction m with
  | nil =>
    by_cases h : x == w
    · simp only [bump, countOfKey, List.find?, h]
      simp [show x = w from by simpa using h]
    · simp [bump, countOfKey, List.find?, h]
  | cons kv t ih =>
    obtain ⟨k, v⟩ := kv
    rw [bump]
    by_cases hk : k == x
    · rw [if_pos hk]
      have hk' : k = x := by simpa using hk
      subst hk'
      by_cases hw : k == w
      · have hw' : k = w := by simpa using hw
        subst hw'
        simp [countOfKey, List.find?]
      · simp [countOfKey, List.find?, hw]
    · rw [if_neg hk]
      simp only [countOfKey, List.find?] at ih ⊢
      by_cases hw : k == w
      · have hw' : k = w := by simpa using hw
        have hx : (x == w) = false := by
          refine beq_eq_false_iff_ne.mpr ?_
          intro hc
          subst hc
          subst hw'
          exact hk (by simp)
        simp [hw, hx]
      · simp only [hw, cond_false, Bool.false_eq_true, if_neg]
        simp [hw, ih]

theorem foldl_bump_count (f : String → String) (ws : List String)
    (m : List (String × Nat)) (w : String) :
    countOfKey (ws.foldl (fun acc t => bump acc (f t)) m) w =
      countOfKey m w + (ws.map f).count w := by
  induction ws generalizing m with
  | nil => simp
  | cons t ts ih =>
    rw [List.foldl_cons, ih, bump_countOfKey]
    simp only [List.map_cons, List.count_cons]
    by_cases h : f t == w
    · simp only [h, if_pos]
      omega
    · simp [h]

/-! ## Claim C1 -/

/-- C1 counterexample: over the two-candidate corpus `exDb` (page 1 has
`cat` with frequency 10 and links to page 2, which has `cat` with
frequency 1), `search` returns page 2 before page 1 although the claimed
final score of page 1 (`rel + auth` = `10 + 1 = 11`) strictly exceeds that
of page 2 (`1 + 0.85 × 10/1 = 9.5`): the output is not ordered by the
claimed score. -/
theorem claim_ranking_counterexample :
    search exDb "cat" = some [cpB, cpA] ∧
    specScore exDb exRel cpA.page.id > specScore exDb exRel cpB.page.id ∧
    relevanceScore (extractKeywords "cat") cpA = 10 ∧
    relevanceScore (extractKeywords "cat") cpB = 1 ∧
    cpA ≠ cpB := by
  refine ⟨?_, ?_, by decide, by decide, by decide⟩
  · obtain ⟨res, hs, hperm, hsort⟩ := search_sorted exDb "cat" (by decide)
    rw [show candidatePages exDb "cat" = [cpA, cpB] from by decide] at hperm
    rcases perm_pair_cases hperm with he | he
    · exfalso
      subst he
      have hpair := List.rel_of_pairwise_cons hsort (List.mem_singleton.mpr rfl)
      rw [show cpA.page.id = 1 from rfl, show cpB.page.id = 2 from rfl,
        searchRank_exDb_one, searchRank_exDb_two] at hpair
      norm_num at hpair
    · subst he
      exact hs
  · rw [show cpA.page.id = 1 from rfl, show cpB.page.id = 2 from rfl,
      show specScore exDb exRel 1 = 11 from by
        norm_num [specScore, specAuth, inlinks, outdeg, exRel, exDb],
      show specScore exDb exRel 2 = 19 / 2 from by
        norm_num [specScore, specAuth, inlinks, outdeg, exRel, exDb]]
    norm_num

/-- C1 amended: for every non-empty query the search operation returns the
candidate pages in some order sorted by non-increasing `searchRank`, where
`searchRank(p) = 0.85 × (1 + Σ over backlink-map entries (q, c) with
q ≠ p of rel(q)/c)`: the page's own relevance does not enter its score,
and no page-id tie-break is applied (`sort.Slice` is not stable). -/
theorem claim_search_rank_order (db : Db) (query : String) (h : query ≠ "") :
    ∃ res, search db query = some res ∧
      res.Perm (candidatePages db query) ∧
      res.Pairwise (fun a b => searchRank db query a.page.id ≥ searchRank db query b.page.id) :=
  search_sorted db query h

/-- Witness for the amended C1 at the concrete corpus `exDb` and query
`cat`. -/
theorem claim_search_rank_order_witness :
    ∃ res, search exDb "cat" = some res ∧
      res.Perm (candidatePages exDb "cat") ∧
      res.Pairwise (fun a b => searchRank exDb "cat" a.page.id ≥ searchRank exDb "cat" b.page.id) :=
  claim_search_rank_order exDb "cat" (by decide)

/-! ## Claim C2 -/

/-- C2 counterexample: `extractKeywords "the a"` keeps both the stop-word
`the` (the spec's own example stop-word) and the token `a`, whose length 1
is below the spec's `MINIMUM_WORD_LENGTH` default of 2: query term
extraction applies no stop-word and no length filtering. -/
theorem claim_query_terms_counterexample :
    extractKeywords "the a" = [("the", 1), ("a", 1)] ∧
    "the" ∈ exampleStopWords ∧
    "a".length < MIN_WORD_LEN ∧
    countOfKey (extractKeywords "the a") "the" = 1 ∧
    countOfKey (extractKeywords "the a") "a" = 1 := by
  refine ⟨by decide, by decide, by decide, by decide, by decide⟩

/-- C2 amended: query term extraction splits the query on whitespace,
lowercases each token and Porter-stems it, and counts every resulting
token — no stop-word filter and no length filter is applied: the count of
every word in the result map equals its multiplicity among the stemmed
lowercased tokens. -/
theorem claim_extractKeywords_counts (q w : String) :
    countOfKey (extractKeywords q) w =
      ((stringFields q).map (fun t => porterStem (lowerStr t))).count w := by
  rw [extractKeywords, foldl_bump_count]
  simp [countOfKey]

theorem saveContent_fields (st : CrawlState) (url : String) :
    (saveContent st url).queue = st.queue ∧
    (saveContent st url).visited = st.visited ∧
    (saveContent st url).now = st.now ∧
    (saveContent st url).trace = st.trace := by
  unfold saveContent
  split <;> exact ⟨rfl, rfl, rfl, rfl⟩

theorem foldl_queue_fields (links : List String) (st : CrawlState) :
    (links.foldl (fun s l => { s with queue := l :: s.queue }) st).visited = st.visited ∧
    (links.foldl (fun s l => { s with queue := l :: s.queue }) st).now = st.now ∧
    (links.foldl (fun s l => { s with queue := l :: s.queue }) st).queue =
      links.foldl (fun q l => l :: q) st.queue := by
  induction links generalizing st with
  | nil => exact ⟨rfl, rfl, rfl⟩
  | cons l ls ih => exact ⟨(ih _).1, (ih _).2.1, (ih _).2.2⟩

theorem chainRun_result :
    (crawlRun chainEnv 6 chainSt0 []).pages =
      [("http://h/0", 0), ("http://h/1", 0), ("http://h/2", 0)] := by
  simp [crawlRun, fetchStep, supervisorPick, rpop, shouldVisit, saveContent, chainEnv, chainSt0,
    extractLinks, extractLinksList, anchorTo, isAllowedByRobots, UserAgent,
    show parseURL "http://h/0" = some chainU0 from by decide,
    show parseURL "http://h/1" =
      some { scheme := "http", host := "h", path := "/1", query := "", fragment := "" }
      from by decide,
    show parseURL "http://h/2" =
      some { scheme := "http", host := "h", path := "/2", query := "", fragment := "" }
      from by decide,
    show GoURL.str chainU0 = "http://h/0" from by decide,
    show GoURL.str { scheme := "http", host := "h", path := "/1", query := "", fragment := "" } =
      "http://h/1" from by decide,
    show GoURL.str { scheme := "http", host := "h", path := "/2", query := "", fragment := "" } =
      "http://h/2" from by decide,
    show resolveURL chainU0 "http://h/1" = "http://h/1" from by decide,
    show resolveURL { scheme := "http", host := "h", path := "/1", query := "", fragment := "" }
      "http://h/2" = "http://h/2" from by decide,
    show isValidURL "http://h/1" = true from by decide,
    show isValidURL "http://h/2" = true from by decide]

theorem twoRun_trace :
    (crawlRun twoEnv 4 twoSt0 []).trace = [(0, "http://h/b"), (0, "http://h/a")] := by
  simp [crawlRun, fetchStep, supervisorPick, rpop, shouldVisit, saveContent, twoEnv, twoSt0,
    extractLinks, extractLinksList, isAllowedByRobots, UserAgent,
    show parseURL "http://h/a" = some exBase from by decide,
    show parseURL "http://h/b" =
      some { scheme := "http", host := "h", path := "/b", query := "", fragment := "" }
      from by decide,
    show GoURL.str exBase = "http://h/a" from by decide,
    show GoURL.str { scheme := "http", host := "h", path := "/b", query := "", fragment := "" } =
      "http://h/b" from by decide]

theorem seedRun_result :
    (crawlRun seedEnv 2 oldPagesSt []).trace = [(1000, "https://www.google.com/")] ∧
    (crawlRun seedEnv 2 oldPagesSt []).pages =
      [("http://old/", 0), ("https://www.google.com/", 1000)] := by
  constructor <;>
  simp [crawlRun, fetchStep, supervisorPick, rpop, shouldVisit, saveContent, seedEnv, oldPagesSt,
    extractLinks, extractLinksList, isAllowedByRobots, UserAgent,
    show SeedURLs.getD (0 % SeedURLs.length) "" = "https://www.google.com/" from by decide,
    show SeedURLs[0]?.getD "" = "https://www.google.com/" from by decide,
    show parseURL "https://www.google.com/" =
      some { scheme := "https", host := "www.google.com", path := "/", query := "", fragment := "" }
      from by decide,
    show GoURL.str
      { scheme := "https", host := "www.google.com", path := "/", query := "", fragment := "" } =
      "https://www.google.com/" from by decide]

/-! ## Claim C3 -/

/-- C3: the robots check allows the fetch whenever the robots.txt request
errors, returns a non-200 status, its body cannot be read, or fails to
parse (permissive fallback); when it parses, the verdict is exactly the
`Test` of the group found for the configured user-agent, where the group
lookup takes the first group listing the agent and otherwise falls back to
the first `*` group. -/
theorem claim_robots_policy (agent path : String) :
    (isAllowedByRobots .fetchError agent path = true) ∧
    (∀ s b, s ≠ 200 → isAllowedByRobots (.response s b) agent path = true) ∧
    (isAllowedByRobots (.response 200 .readError) agent path = true) ∧
    (isAllowedByRobots (.response 200 .parseError) agent path = true) ∧
    (∀ r, isAllowedByRobots (.response 200 (.parsed r)) agent path =
      (findGroup r agent).test path) ∧
    (∀ r g, r.groups.find? (fun g2 => g2.agents.contains agent) = some g →
      findGroup r agent = g) ∧
    (∀ r g, r.groups.find? (fun g2 => g2.agents.contains agent) = none →
      r.groups.find? (fun g2 => g2.agents.contains "*") = some g →
      findGroup r agent = g) := by
  refine ⟨rfl, ?_, rfl, rfl, ?_, ?_, ?_⟩
  · intro s b hs
    simp [isAllowedByRobots, hs]
  · intro r
    simp [isAllowedByRobots]
  · intro r g hf
    unfold findGroup
    rw [hf]
  · intro r g hn hf
    unfold findGroup
    rw [hn, hf]

/-- Witness for C3: a 404 robots.txt is permissive, and a parsed rule set
disallowing `/private` for `GSE-Bot` makes the check fail on that path. -/
theorem claim_robots_policy_witness :
    isAllowedByRobots (.response 404 .readError) UserAgent "/private" = true ∧
    isAllowedByRobots (.response 200 (.parsed wRobots)) UserAgent "/private" = false := by
  constructor
  · exact (claim_robots_policy UserAgent "/private").2.1 404 .readError (by decide)
  · rw [(claim_robots_policy UserAgent "/private").2.2.2.2.1 wRobots]
    simp [findGroup, wRobots, UserAgent]

/-! ## Claim C4 -/

/-- C4 counterexample: an HTTP 500 response is dropped at retry count 0
with no retry and no visited-marking (the claim requires retrying 5xx up
to `MaxRetries`); after `MaxRetries` transport failures the crawler spawns
a fetch of a random seed instead of marking the URL visited; and a
transport error — which in Go covers DNS failures, refused connections and
timeouts alike — is retried (the claim requires dropping DNS failures
without retry). -/
theorem claim_fetch_errors_counterexample :
    ((fetchStep e500Env freshSt "http://h/a" 0).2 = Spawn.done ∧
     (fetchStep e500Env freshSt "http://h/a" 0).1.visited = [] ∧
     0 < MaxRetries) ∧
    ((fetchStep errEnv freshSt "http://h/a" MaxRetries).2 = Spawn.seed ∧
     (fetchStep errEnv freshSt "http://h/a" MaxRetries).1.visited = []) ∧
    (fetchStep errEnv freshSt "http://h/a" 0).2 = Spawn.retry "http://h/a" 1 := by
  exact ⟨⟨by decide, by decide, by decide⟩, ⟨by decide, by decide⟩, by decide⟩

/-- C4 amended: for a fresh, robots-allowed URL, any transport error
(DNS, refused and timeout are indistinguishable in Go) sleeps `RetryDelay`
and retries while the counter is below `MaxRetries`, after which a
random-seed fetch is spawned with the URL left unmarked; any non-200
status — 4xx and 5xx alike — drops the URL immediately with no retry and
no visited-marking; only a 200 response marks the URL visited. -/
theorem claim_fetch_error_handling (env : CrawlEnv) (st : CrawlState) (rawurl : String)
    (u : GoURL) (rc : Nat)
    (hp : parseURL rawurl = some u)
    (hsv : shouldVisit st u.str = true)
    (hnv : st.visited.contains u.str = false)
    (hrob : isAllowedByRobots
      (env.robotsFetch (u.scheme ++ "://" ++ u.host ++ "/robots.txt")) UserAgent u.path = true) :
    (env.web u.str = .transportError → rc < MaxRetries →
      fetchStep env st rawurl rc =
        ({ st with trace := (st.now, u.str) :: st.trace, now := st.now + RetryDelay },
         .retry rawurl (rc + 1))) ∧
    (env.web u.str = .transportError → ¬ rc < MaxRetries →
      fetchStep env st rawurl rc =
        ({ st with trace := (st.now, u.str) :: st.trace }, .seed)) ∧
    (∀ s b, env.web u.str = .response s b → s ≠ 200 →
      fetchStep env st rawurl rc =
        ({ st with trace := (st.now, u.str) :: st.trace }, .done)) ∧
    (∀ b, env.web u.str = .response 200 b →
      (fetchStep env st rawurl rc).1.visited = u.str :: st.visited ∧
      (fetchStep env st rawurl rc).2 = .done) := by
  have hnv2 : u.str ∉ st.visited := by simpa using hnv
  refine ⟨?_, ?_, ?_, ?_⟩
  · intro hw hrc
    simp [fetchStep, hp, hsv, hnv2, hrob, hw, hrc]
  · intro hw hrc
    simp [fetchStep, hp, hsv, hnv2, hrob, hw, hrc]
  · intro s b hw hs
    simp [fetchStep, hp, hsv, hnv2, hrob, hw, hs]
  · intro b hw
    constructor
    · simp only [fetchStep, hp, hsv, hnv2, hrob, hw]
      simp [(foldl_queue_fields _ _).1, saveContent, hnv2]
      split <;> simp
    · simp only [fetchStep, hp, hsv, hnv2, hrob, hw]
      simp [hnv2]

/-- Witness for the amended C4: the first transport failure on a fresh URL
is retried after `RetryDelay = 2` seconds. -/
theorem claim_fetch_error_handling_witness :
    fetchStep errEnv freshSt "http://h/a" 0 =
      ({ queue := [], visited := [], pages := [], trace := [(0, "http://h/a")], now := 2 },
       .retry "http://h/a" 1) := by
  have h := (claim_fetch_error_handling errEnv freshSt "http://h/a" exBase 0
    (by decide) (by decide) (by decide) rfl).1 rfl (by decide)
  rw [h]
  decide

/-! ## Claim C5 -/

/-- C5 counterexample: with the chain `h/0 → h/1 → h/2` and the single
seed `h/0`, the crawl visits `h/2`, whose link distance from the seed is
2; taking the claim's `MAXIMUM_DEPTH = 1` (a value ≥ 0) the page should
have been dropped — `crawler.go` tracks no depth at all (the integer
passed to `fetch` is a retry counter). -/
theorem claim_depth_counterexample :
    (crawlRun chainEnv 6 chainSt0 []).pages.map Prod.fst =
      ["http://h/0", "http://h/1", "http://h/2"] ∧
    "http://h/2" ∈ (crawlRun chainEnv 6 chainSt0 []).pages.map Prod.fst ∧
    (2 : Nat) > 1 ∧ (1 : Int) ≥ 0 := by
  refine ⟨by rw [chainRun_result]; rfl, by rw [chainRun_result]; decide, by decide, by decide⟩

/-- C5 amended: enqueued URLs carry no depth — the integer passed to
`fetch` is a retry counter, and the supervisor passes 0 for every popped
URL; on a successful fetch every extracted link is enqueued whatever the
counter's value, so the crawl is depth-unbounded (the behaviour of
`MAXIMUM_DEPTH = -1`). -/
theorem claim_no_depth_bound (env : CrawlEnv) (st : CrawlState) (rawurl : String)
    (u : GoURL) (body : HNode)
    (hp : parseURL rawurl = some u)
    (hsv : shouldVisit st u.str = true)
    (hnv : st.visited.contains u.str = false)
    (hrob : isAllowedByRobots
      (env.robotsFetch (u.scheme ++ "://" ++ u.host ++ "/robots.txt")) UserAgent u.path = true)
    (hweb : env.web u.str = .response 200 body) :
    (∀ rc, (fetchStep env st rawurl rc).1.queue =
        (extractLinks u body).foldl (fun q l => l :: q) st.queue ∧
      (fetchStep env st rawurl rc).2 = .done) ∧
    (∀ fuel q2 u2, rpop st.queue = some (u2, q2) →
      crawlRun env (fuel + 1) st [] = crawlRun env fuel { st with queue := q2 } [(u2, 0)]) := by
  have hnv2 : u.str ∉ st.visited := by simpa using hnv
  constructor
  · intro rc
    constructor
    · simp only [fetchStep, hp, hsv, hnv2, hrob, hweb]
      simp [(foldl_queue_fields _ _).2.2, (saveContent_fields _ _).1, hnv2]
    · simp only [fetchStep, hp, hsv, hnv2, hrob, hweb]
      simp [hnv2]
  · intro fuel q2 u2 hpop
    rw [crawlRun]
    simp [supervisorPick, hpop]

/-- Witness for the amended C5: the chain seed is popped and fetched with
counter 0. -/
theorem claim_no_depth_bound_witness :
    crawlRun chainEnv 1 chainSt0 [] =
      crawlRun chainEnv 0 { chainSt0 with queue := [] } [("http://h/0", 0)] := by
  exact (claim_no_depth_bound chainEnv chainSt0 "http://h/0" chainU0 (anchorTo "http://h/1")
    (by decide) (by decide) (by decide) rfl rfl).2 0 [] "http://h/0" (by decide)

/-! ## Claim C6 -/

/-- C6 counterexample: two distinct fresh URLs on the same host `h` are
fetched back to back with zero elapsed model time (the clock advances only
at `time.Sleep`, and no politeness wait exists in `crawler.go`), so the
gap between the two same-host fetch timestamps is below the spec's
`CRAWL_DELAY` default of 1 second. -/
theorem claim_politeness_counterexample :
    (crawlRun twoEnv 4 twoSt0 []).trace = [(0, "http://h/b"), (0, "http://h/a")] ∧
    (parseURL "http://h/a").map GoURL.host = some "h" ∧
    (parseURL "http://h/b").map GoURL.host = some "h" ∧
    CRAWL_DELAY = 1 ∧ (0 : Nat) - 0 < CRAWL_DELAY := by
  refine ⟨twoRun_trace, by decide, by decide, rfl, by decide⟩

/-- C6 amended: the only re-queue-instead-of-fetch rule is per URL, not
per host: a URL whose `pages` row is younger than `RevisitDelay` is pushed
back without any request; and a fetch that receives any HTTP response
leaves the clock unchanged — the worker never waits between requests, to
the same host or otherwise. -/
theorem claim_politeness_requeue_only (env : CrawlEnv) (st : CrawlState) (rawurl : String)
    (u : GoURL) (rc : Nat)
    (hp : parseURL rawurl = some u) :
    (shouldVisit st u.str = false →
      fetchStep env st rawurl rc = ({ st with queue := u.str :: st.queue }, .done)) ∧
    (∀ s b, shouldVisit st u.str = true → st.visited.contains u.str = false →
      isAllowedByRobots (env.robotsFetch (u.scheme ++ "://" ++ u.host ++ "/robots.txt"))
        UserAgent u.path = true →
      env.web u.str = .response s b →
      (fetchStep env st rawurl rc).1.now = st.now) := by
  constructor
  · intro h
    simp [fetchStep, hp, h]
  · intro s b hsv hnv hrob hweb
    have hnv2 : u.str ∉ st.visited := by simpa using hnv
    by_cases hs : s = 200
    · subst hs
      simp only [fetchStep, hp, hsv, hnv2, hrob, hweb]
      simp [(foldl_queue_fields _ _).2.1, (saveContent_fields _ _).2.2.1, hnv2]
    · simp only [fetchStep, hp, hsv, hnv2, hrob, hweb]
      simp [hnv2, hs]

/-- Witness for the amended C6: a URL visited 0 seconds ago is re-queued
without a request. -/
theorem claim_politeness_requeue_only_witness :
    fetchStep twoEnv recentSt "http://h/a" 0 =
      ({ queue := ["http://h/a"], visited := [], pages := [("http://h/a", 0)], trace := [],
         now := 0 }, .done) := by
  have h := (claim_politeness_requeue_only twoEnv recentSt "http://h/a" exBase 0
    (by decide)).1 (by decide)
  rw [h]
  decide

/-! ## Claim C9 -/

/-- C9 counterexample: with an empty queue and a non-empty `pages` table
the supervisor does not idle: it immediately fetches a random seed, which
is crawled and inserted into `pages`. -/
theorem claim_seeding_counterexample :
    oldPagesSt.queue = [] ∧ oldPagesSt.pages ≠ [] ∧
    (crawlRun seedEnv 2 oldPagesSt []).trace = [(1000, "https://www.google.com/")] ∧
    (crawlRun seedEnv 2 oldPagesSt []).pages =
      [("http://old/", 0), ("https://www.google.com/", 1000)] := by
  exact ⟨rfl, by decide, seedRun_result.1, seedRun_result.2⟩

/-- C9 amended: on queue-empty the supervisor immediately (no grace
period) selects the seed URL given by the random draw and hands it to
`fetch` directly — it is never enqueued — and the pick is independent of
the `pages` table. -/
theorem claim_supervisor_seeds_unconditionally (st : CrawlState) (draw : Nat)
    (hq : st.queue = []) :
    (supervisorPick st draw).1 = SeedURLs.getD (draw % SeedURLs.length) "" ∧
    (∀ pages2, supervisorPick { st with pages := pages2 } draw = supervisorPick st draw) ∧
    (∀ env fuel, env.seedPick = draw →
      crawlRun env (fuel + 1) st [] =
        crawlRun env fuel st [(SeedURLs.getD (draw % SeedURLs.length) "", 0)]) := by
  refine ⟨?_, fun pages2 => rfl, ?_⟩
  · simp [supervisorPick, rpop, hq]
  · intro env fuel hd
    rw [crawlRun]
    simp only [supervisorPick, rpop, hq, hd, List.getLast?_nil, List.dropLast_nil]
    rw [← hq]

/-- Witness for the amended C9 at a state with an empty queue and a
non-empty `pages` table. -/
theorem claim_supervisor_seeds_unconditionally_witness :
    (supervisorPick oldPagesSt 0).1 = SeedURLs.getD (0 % SeedURLs.length) "" ∧
    supervisorPick { oldPagesSt with pages := [] } 0 = supervisorPick oldPagesSt 0 :=
  ⟨(claim_supervisor_seeds_unconditionally oldPagesSt 0 rfl).1,
   (claim_supervisor_seeds_unconditionally oldPagesSt 0 rfl).2.1 []⟩

end RSE
